import Mathlib

/-!
Verification development for the Solidity-Analyzer service (src/main.py).

The file embeds, as executable Lean definitions, the contract source
acquisition and workspace staging pipeline of the service:

* `get_solidity_version`      — src/main.py lines 173-187
* `get_contract_code_bc`      — src/main.py lines 37-103 (explorer path)
* `get_contract_code_raw`     — src/main.py lines 105-130 (raw code path)
* `analyze_contract_code`     — src/main.py lines 155-169 (normalization)
* `delete_contract_directory` — src/main.py lines 191-217
* `analyze_contract`          — src/main.py lines 229-272 (request handler)

The process filesystem and working directory are modelled explicitly
(`FS`, `PState`).  External collaborators are inputs: the explorer HTTP
response arrives as an `ExplorerResp` value (its JSON decoding is done by
the `requests`/`json` libraries), and the raw detector
output arrives as a list of result groups.  Python exceptions are
modelled with `Except PyExn`.
-/

set_option autoImplicit false

namespace SolidityAnalyzer

/-! ## String primitives (Python `str.split`, `in`, `re.search`) -/

/-- Python `s.split(sep)` for a one-character separator: the separator
characters are removed and do not appear in the pieces. -/
def splitOnChar (sep : Char) : List Char → List (List Char)
  | [] => [[]]
  | c :: rest =>
    match splitOnChar sep rest with
    | [] => [[]]
    | h :: t => if c = sep then [] :: h :: t else (c :: h) :: t

/-- Re-joining the pieces with the separator: used to show `splitOnChar`
loses no information. -/
def joinSep (sep : Char) : List (List Char) → List Char
  | [] => []
  | [x] => x
  | x :: y :: t => x ++ sep :: joinSep sep (y :: t)

/-- Python `code.split("\n")`. -/
def pySplit (s : String) : List String :=
  (splitOnChar (Char.ofNat 10) s.data).map String.mk

/-- The lines seen when iterating over a text file whose content is `s`
(src/main.py lines 120-121).  Python keeps the terminators and omits a
final empty line; neither difference is observable by the two operations
performed on a line (substring test for a newline-free needle, and a
digits-dot regex search), so the `split`-based decomposition is used. -/
def pyLines (s : String) : List String :=
  pySplit s

/-- Path components of a relative path string (split on the slash). -/
def splitPath (s : String) : List String :=
  (splitOnChar (Char.ofNat 47) s.data).map String.mk

/-- Python `needle.isPrefixOf`-style test via `List.isPrefixOf`;
`containsSubL needle hay` is Python `needle in hay`. -/
def containsSubL (needle : List Char) : List Char → Bool
  | [] => needle.isEmpty
  | c :: cs => needle.isPrefixOf (c :: cs) || containsSubL needle cs

/-- Python `needle in hay` on strings. -/
def containsSub (hay needle : String) : Bool :=
  containsSubL needle.data hay.data

/-- Maximal leading run of decimal digits and the rest
(the greedy `\d+` of the regexes in src/main.py). -/
def takeDigits : List Char → List Char × List Char
  | [] => ([], [])
  | c :: cs =>
    if c.isDigit then
      match takeDigits cs with
      | (d, r) => (c :: d, r)
    else ([], c :: cs)

/-- Match of the regex `\d+\.\d+\.\d+` anchored at the head of the list;
returns the matched text.  For this pattern greedy matching needs no
backtracking: a digit run is always followed by a non-digit, so the only
way to continue with a literal dot is after the maximal run. -/
def matchVersionAt (cs : List Char) : Option (List Char) :=
  match takeDigits cs with
  | ([], _) => none
  | (d1, r1) =>
    match r1 with
    | '.' :: r2 =>
      (match takeDigits r2 with
       | ([], _) => none
       | (d2, r3) =>
         match r3 with
         | '.' :: r4 =>
           (match takeDigits r4 with
            | ([], _) => none
            | (d3, _) => some (d1 ++ '.' :: d2 ++ '.' :: d3))
         | _ => none)
    | _ => none

/-- The search for the regex of three dot-separated digit runs: leftmost match. -/
def searchVersion : List Char → Option (List Char)
  | [] => none
  | c :: cs =>
    match matchVersionAt (c :: cs) with
    | some m => some m
    | none => searchVersion cs

/-- The result of the regex search on a line as a string option
(src/main.py line 124). -/
def findVersion (s : String) : Option String :=
  (searchVersion s.data).map String.mk

/-- Match of the regex `v(\d+\.\d+\.\d+)` anchored at the head; returns
the captured group (the version without the leading `v`). -/
def matchVAt : List Char → Option (List Char)
  | 'v' :: rest => matchVersionAt rest
  | _ => none

/-- The search for a v followed by a three-component version: leftmost match, captured group. -/
def searchV : List Char → Option (List Char)
  | [] => none
  | c :: cs =>
    match matchVAt (c :: cs) with
    | some m => some m
    | none => searchV cs

/-- src/main.py lines 173-187: extract the solidity version from an
explorer-reported compiler version string; empty string when the regex
does not match. -/
def get_solidity_version (compiler_version : String) : String :=
  match searchV compiler_version.data with
  | some g => String.mk g
  | none => ""

/-! ## Filesystem and process state -/

/-- Absolute paths as component lists (`[]` is the process root). -/
abbrev FsPath := List String

/-- The filesystem: regular files (path and content) plus the set of
directories that exist. -/
structure FS where
  files : List (FsPath × String)
  dirs : List FsPath
deriving DecidableEq

/-- Process state: filesystem, current working directory, and the solc
version last activated through `solc_select.switch_global_version`
(process-wide global of the toolchain). -/
structure PState where
  fs : FS
  wd : FsPath
  solc : String
deriving DecidableEq

/-- The Python exceptions the embedded code can raise. -/
inductive PyExn where
  /-- `os.makedirs("")` raises `FileNotFoundError` (also: resolving a
  missing path component). -/
  | fileNotFoundError
  /-- `re.search(...)` returned `None` and `.group(0)` was called on it. -/
  | attributeError
  /-- A regular file occupies a path component that must be traversed as
  a directory (ENOTDIR). -/
  | notADirectoryError
  /-- `open(p, "w")` where `p` is a directory (EISDIR). -/
  | isADirectoryError
  /-- `os.mkdir` on an existing entry (EEXIST). -/
  | fileExistsError
deriving DecidableEq

/-- The raw file-map update performed by a successful write: replaces
any previous file at `p`. -/
def writeF (fs : FS) (p : FsPath) (content : String) : FS :=
  FS.mk ((p, content) :: fs.files.filter (fun e => e.1 != p)) fs.dirs

/-- First entry with the given path in a file list. -/
def lookupF : List (FsPath × String) → FsPath → Option String
  | [], _ => none
  | e :: t, p => if e.1 = p then some e.2 else lookupF t p

/-- Reading the file at `p`, when it exists. -/
def readF (fs : FS) (p : FsPath) : Option String :=
  lookupF fs.files p

/-- A regular file exists at `p`. -/
def isFile (fs : FS) (p : FsPath) : Bool :=
  (lookupF fs.files p).isSome

/-- A directory exists at `p`. -/
def isDir (fs : FS) (p : FsPath) : Bool :=
  fs.dirs.contains p

/-- `os.path.exists` for a nonempty path string: a regular file or a
directory is there. -/
def pathExists (fs : FS) (p : FsPath) : Bool :=
  isFile fs p || isDir fs p

/-- `os.path.exists(os.path.dirname(f))` for a file name whose dirname
components are `d`, relative to `wd`: the empty dirname (a slash-free
file name) never exists in Python. -/
def dirnameExists (fs : FS) (wd : FsPath) (d : FsPath) : Bool :=
  if d = [] then false else pathExists fs (wd ++ d)

/-- Path resolution of the directory chain below `base`: each component
must be a directory; a regular file on the chain is ENOTDIR, a missing
entry ENOENT.  Returns the resolved directory. -/
def resolveDir (fs : FS) : FsPath → FsPath → Except PyExn FsPath
  | base, [] => Except.ok base
  | base, c :: rest =>
    if isDir fs (base ++ [c]) then resolveDir fs (base ++ [c]) rest
    else if isFile fs (base ++ [c]) then Except.error PyExn.notADirectoryError
    else Except.error PyExn.fileNotFoundError

/-- `open(rel, "w")` followed by writing `content`, relative to `wd`:
resolves the parent chain, refuses a directory target, then creates or
truncates the file. -/
def openW (fs : FS) (wd : FsPath) (rel : FsPath) (content : String) :
    Except PyExn FS :=
  match resolveDir fs wd rel.dropLast with
  | Except.error e => Except.error e
  | Except.ok _ =>
    if isDir fs (wd ++ rel) then Except.error PyExn.isADirectoryError
    else Except.ok (writeF fs (wd ++ rel) content)

/-- The creating walk of `os.makedirs`: descend component by component,
entering existing directories, creating missing ones; a regular file on
the chain is ENOTDIR, and the final `mkdir` on an already existing
entry is EEXIST. -/
def makedirsWalk (fs : FS) : FsPath → FsPath → Except PyExn FS
  | _, [] => Except.ok fs
  | base, c :: rest =>
    if rest = [] then
      (if pathExists fs (base ++ [c]) then Except.error PyExn.fileExistsError
       else Except.ok (FS.mk fs.files ((base ++ [c]) :: fs.dirs)))
    else
      if isDir fs (base ++ [c]) then makedirsWalk fs (base ++ [c]) rest
      else if isFile fs (base ++ [c]) then Except.error PyExn.notADirectoryError
      else makedirsWalk (FS.mk fs.files ((base ++ [c]) :: fs.dirs)) (base ++ [c]) rest

/-- `os.makedirs(rel)` relative to `wd`; `os.makedirs("")` raises
`FileNotFoundError`. -/
def makedirsE (fs : FS) (wd : FsPath) (rel : FsPath) : Except PyExn FS :=
  if rel = [] then Except.error PyExn.fileNotFoundError
  else makedirsWalk fs wd rel

/-- `os.chdir(rel)` relative to `wd`: the whole chain must resolve and
the target must be a directory.  Returns the new working directory. -/
def chdirE (fs : FS) (wd : FsPath) (rel : FsPath) : Except PyExn FsPath :=
  match resolveDir fs wd rel.dropLast with
  | Except.error e => Except.error e
  | Except.ok _ =>
    if isDir fs (wd ++ rel) then Except.ok (wd ++ rel)
    else if isFile fs (wd ++ rel) then Except.error PyExn.notADirectoryError
    else Except.error PyExn.fileNotFoundError

/-- `p` lies strictly below directory `d`. -/
def isStrictUnder (d p : FsPath) : Bool :=
  d.isPrefixOf p && decide (d.length < p.length)

/-- Well-formedness of a real filesystem: every ancestor of an existing
directory exists. -/
def DirsClosed (fs : FS) : Prop :=
  ∀ d ∈ fs.dirs, ∀ q : FsPath, q <+: d → q ≠ [] → q ∈ fs.dirs

/-- The current working directory (and its ancestors) exist. -/
def WdOk (st : PState) : Prop :=
  ∀ q : FsPath, q <+: st.wd → q ≠ [] → q ∈ st.fs.dirs

/-! ## The explorer envelope and the staged source tree -/

/-- The shape of the SourceCode payload of the explorer, after the JSON
decoding done by the `json` library: a raw single file (payload not
beginning with a brace) or the `sources` mapping of relative path to
file content (payload beginning with a brace, outer braces stripped). -/
inductive SourceEnvelope where
  | single (rawCode : String)
  | multi (sources : List (String × String))
deriving DecidableEq

/-- The fields of the explorer HTTP response consumed by
src/main.py lines 46-49. -/
structure ExplorerResp where
  status : Nat
  envelope : SourceEnvelope
  compilerVersion : String
  contractName : String
deriving DecidableEq

/-- The needle `"contract " + contract_name` of src/main.py line 79. -/
def contractNeedle (name : String) : String :=
  "contract " ++ name

/-- src/main.py lines 74-80: scan every file for the literal substring
`contract <name>`; the last file whose content contains it becomes the
main contract, `""` when none does. -/
def mainContractOf (name : String) (sources : List (String × String)) : String :=
  sources.foldl
    (fun mc fc => if containsSub fc.2 (contractNeedle name) then fc.1 else mc) ""

/-- The body shared by both branches of the staging loop iteration
(src/main.py lines 85-98; the two branch bodies are identical in the
source): if the dirname does not exist, `os.makedirs` it (raising
`FileNotFoundError` for an empty dirname, i.e. a slash-free file name),
then `open(file_name, "w")` and write the content. -/
def stageFileBody (st : PState) (fc : String × String) : Except PyExn PState :=
  let comps := splitPath fc.1
  let d := comps.dropLast
  if dirnameExists st.fs st.wd d then
    match openW st.fs st.wd comps fc.2 with
    | Except.error e => Except.error e
    | Except.ok fs2 => Except.ok (PState.mk fs2 st.wd st.solc)
  else
    match makedirsE st.fs st.wd d with
    | Except.error e => Except.error e
    | Except.ok fs1 =>
      match openW fs1 st.wd comps fc.2 with
      | Except.error e => Except.error e
      | Except.ok fs2 => Except.ok (PState.mk fs2 st.wd st.solc)

/-- One iteration of the staging loop, src/main.py lines 82-98.  The
`main_contract == file_name` test is kept although the source gives the
two branches identical bodies. -/
def stageFile (main_contract : String) (st : PState) (fc : String × String) :
    Except PyExn PState :=
  if main_contract == fc.1 then stageFileBody st fc
  else stageFileBody st fc

/-- The staging loop over all files of a multi-file envelope
(src/main.py lines 82-98). -/
def stageMulti (main_contract : String) : PState → List (String × String) →
    Except PyExn PState
  | st, [] => Except.ok st
  | st, fc :: rest =>
    match stageFile main_contract st fc with
    | Except.error e => Except.error e
    | Except.ok st1 => stageMulti main_contract st1 rest

/-- The error message printed at src/main.py line 103 and returned at
lines 260 and 269. -/
def errRetrieve : String :=
  "Unable to retrieve contract code"

/-- The error message returned at src/main.py line 265. -/
def errMissing : String :=
  "Missing blockchain or contract address"

/-- The guarded directory creation followed by the chdir of
src/main.py lines 56-60 (and 109-113): create the workspace root if
`os.path.exists` denies it, then change into it. -/
def workspacePrep (root : FsPath) (st : PState) : Except PyExn PState :=
  match (if pathExists st.fs (st.wd ++ root) then Except.ok st.fs
         else makedirsE st.fs st.wd root) with
  | Except.error e => Except.error e
  | Except.ok fs2 =>
    match chdirE fs2 st.wd root with
    | Except.error e => Except.error e
    | Except.ok wd2 => Except.ok (PState.mk fs2 wd2 st.solc)

/-- src/main.py lines 37-103: the explorer path of `get_contract_code`.
`resp` is the already-decoded explorer response.  Returns `none` for the
implicit `None` return after the non-200 branch, otherwise the entry
file name and the updated state.  Staging: create
`contracts/<blockchain>/<address>` if absent, chdir into it, then write
the single file (with the four prepended newline strings joined by
`writelines`, which inserts no separators) or run the multi-file loop. -/
def get_contract_code_bc (blockchain contract_address : String)
    (resp : ExplorerResp) (st : PState) : Except PyExn (Option String × PState) :=
  if resp.status == 200 then
    let st1 := PState.mk st.fs st.wd (get_solidity_version resp.compilerVersion)
    match workspacePrep ["contracts", blockchain, contract_address] st1 with
    | Except.error e => Except.error e
    | Except.ok st3 =>
      match resp.envelope with
      | SourceEnvelope.single rawCode =>
        let content := String.join (["\n", "\n", "\n", "\n"] ++ pySplit rawCode)
        let fileName := resp.contractName ++ ".sol"
        (match openW st3.fs st3.wd (splitPath fileName) content with
         | Except.error e => Except.error e
         | Except.ok fs4 => Except.ok (some fileName, PState.mk fs4 st3.wd st3.solc))
      | SourceEnvelope.multi sources =>
        let main_contract := mainContractOf resp.contractName sources
        match stageMulti main_contract st3 sources with
        | Except.error e => Except.error e
        | Except.ok st4 => Except.ok (some main_contract, st4)
  else
    Except.ok (none, st)

/-- The needle `"pragma solidity"` of src/main.py line 123. -/
def pragmaNeedle : String :=
  "pragma solidity"

/-- src/main.py lines 118-125: scan the lines for the first one
containing `pragma solidity`; extract the first `\d+\.\d+\.\d+` from it
(`.group(0)` on a failed search raises `AttributeError`); the version
stays `""` when no line matches. -/
def firstPragmaVersion : List String → Except PyExn String
  | [] => Except.ok ""
  | line :: rest =>
    if containsSub line pragmaNeedle then
      match findVersion line with
      | some v => Except.ok v
      | none => Except.error PyExn.attributeError
    else firstPragmaVersion rest

/-- src/main.py lines 105-130: the raw-code path of `get_contract_code`.
Creates `contracts/no-bc/contract` if absent, chdirs into it, writes
`contract.sol` (`writelines` over a string writes it verbatim), reads it
back line by line to extract the pragma version, activates it, and
returns the file name. -/
def get_contract_code_raw (code : String) (st : PState) :
    Except PyExn (String × PState) :=
  match workspacePrep ["contracts", "no-bc", "contract"] st with
  | Except.error e => Except.error e
  | Except.ok st2 =>
    match openW st2.fs st2.wd ["contract.sol"] code with
    | Except.error e => Except.error e
    | Except.ok fs3 =>
      match firstPragmaVersion (pyLines code) with
      | Except.error e => Except.error e
      | Except.ok v => Except.ok ("contract.sol", PState.mk fs3 st2.wd v)

/-! ## Result normalization -/

/-- One raw finding from the analysis engine: it carries at least the
four projected fields; `extra` stands for whatever further keys the
engine attaches. -/
structure RawIssue where
  check : String
  description : String
  impact : String
  confidence : String
  extra : List (String × String)
deriving DecidableEq

/-- The normalized finding shape returned to the caller
(src/main.py lines 161-166): exactly four fields. -/
structure Finding where
  check : String
  description : String
  impact : String
  confidence : String
deriving DecidableEq

/-- The projection of src/main.py lines 161-166. -/
def projectIssue (i : RawIssue) : Finding :=
  Finding.mk i.check i.description i.impact i.confidence

/-- src/main.py lines 155-169: the normalization loop over the raw
detector result groups (`results` is the output of
`slither_obj.run_detectors()`, an external collaborator). -/
def analyze_contract_code (results : List (List RawIssue)) : List Finding :=
  results.foldl
    (fun acc result =>
      if result ≠ [] then
        result.foldl (fun acc2 issue => acc2 ++ [projectIssue issue]) acc
      else acc)
    []

/-! ## Teardown -/

/-- src/main.py lines 191-217: `os.chdir("..")`, delete every entry of
the now-current directory (files unlinked, directories removed
recursively; in the model every deletion succeeds — the source logs and
skips a failing entry), then `os.chdir("../..")`. -/
def delete_contract_directory (st : PState) : PState :=
  let wd1 := st.wd.dropLast
  let fs1 := FS.mk
    (st.fs.files.filter (fun e => !(isStrictUnder wd1 e.1)))
    (st.fs.dirs.filter (fun d => !(isStrictUnder wd1 d)))
  PState.mk fs1 wd1.dropLast.dropLast st.solc

/-! ## The request handler -/

/-- Python truthiness of an optional query parameter: absent (`None`)
and the empty string are falsy. -/
def truthy : Option String → Bool
  | none => false
  | some s => s != ""

/-- The two response shapes produced by src/main.py lines 229-272. -/
inductive HandlerResp where
  /-- The jsonify result payload, HTTP 200. -/
  | success (findings : List Finding)
  /-- The jsonify error payload with its message, HTTP 400. -/
  | clientError (msg : String)
deriving DecidableEq

/-- The HTTP status of a handler response. -/
def respStatus : HandlerResp → Nat
  | HandlerResp.success _ => 200
  | HandlerResp.clientError _ => 400

/-- src/main.py lines 229-272: the `/analyze` handler.  `code` is the
already base64-decoded `code` parameter (transport decoding belongs to
the excluded HTTP layer), `resp` the explorer response the blockchain
path would receive, `rawResults` the output of the analysis engine.  An
uncaught Python exception is an `Except.error`. -/
def analyze_contract (blockchain contract_address code : Option String)
    (resp : ExplorerResp) (rawResults : List (List RawIssue)) (st : PState) :
    Except PyExn (HandlerResp × PState) :=
  if !truthy blockchain || !truthy contract_address then
    if truthy code then
      match get_contract_code_raw (code.getD "") st with
      | Except.error e => Except.error e
      | Except.ok (contract, st1) =>
        if contract == "" then
          Except.ok (HandlerResp.clientError errRetrieve, st1)
        else
          let slither_result := analyze_contract_code rawResults
          let st2 := delete_contract_directory st1
          Except.ok (HandlerResp.success slither_result, st2)
    else
      Except.ok (HandlerResp.clientError errMissing, st)
  else
    match get_contract_code_bc (blockchain.getD "") (contract_address.getD "") resp st with
    | Except.error e => Except.error e
    | Except.ok (contractOpt, st1) =>
      if !truthy contractOpt then
        Except.ok (HandlerResp.clientError errRetrieve, st1)
      else
        let slither_result := analyze_contract_code rawResults
        let st2 := delete_contract_directory st1
        Except.ok (HandlerResp.success slither_result, st2)

/-! ## Helper lemmas: splitting is injective -/

theorem splitOnChar_ne_nil (sep : Char) (cs : List Char) : splitOnChar sep cs ≠ [] := by
  cases cs with
  | nil => simp [splitOnChar]
  | cons c rest =>
    unfold splitOnChar
    cases splitOnChar sep rest with
    | nil => simp
    | cons h t =>
      dsimp only
      split <;> simp

theorem joinSep_splitOnChar (sep : Char) (cs : List Char) :
    joinSep sep (splitOnChar sep cs) = cs := by
  induction cs with
  | nil => rfl
  | cons c rest ih =>
    unfold splitOnChar
    cases hsp : splitOnChar sep rest with
    | nil => exact absurd hsp (splitOnChar_ne_nil sep rest)
    | cons h t =>
      rw [hsp] at ih
      dsimp only
      by_cases hc : c = sep
      · rw [if_pos hc]
        simp [joinSep, ih, hc]
      · rw [if_neg hc]
        cases t with
        | nil =>
          simp [joinSep] at ih ⊢
          exact ih
        | cons y t' =>
          simp [joinSep] at ih ⊢
          exact ih

theorem string_mk_injective : Function.Injective String.mk := by
  intro a b h
  cases h
  rfl

theorem splitPath_injective : Function.Injective splitPath := by
  intro a b h
  have h1 : splitOnChar (Char.ofNat 47) a.data = splitOnChar (Char.ofNat 47) b.data :=
    List.map_injective_iff.mpr string_mk_injective h
  have h2 := congrArg (joinSep (Char.ofNat 47)) h1
  rw [joinSep_splitOnChar, joinSep_splitOnChar] at h2
  exact String.ext h2

/-! ## Helper lemmas: paths and prefixes -/

theorem prefix_append_cases {α : Type} {r a b : List α} (h : r <+: a ++ b) :
    r <+: a ∨ ∃ q, q <+: b ∧ r = a ++ q := by
  have htake := List.prefix_iff_eq_take.mp h
  rw [List.take_append_eq_append_take] at htake
  by_cases hle : r.length ≤ a.length
  · left
    have : r.length - a.length = 0 := by omega
    rw [this] at htake
    simp at htake
    rw [htake]
    exact List.take_prefix _ _
  · right
    rw [List.take_of_length_le (by omega)] at htake
    exact ⟨b.take (r.length - a.length), List.take_prefix _ _, htake⟩

theorem append_prefix_mono {q d wd : FsPath} (h : q <+: d) : wd ++ q <+: wd ++ d := by
  obtain ⟨t, ht⟩ := h
  exact ⟨t, by rw [List.append_assoc, ht]⟩

theorem append_ne_nil_right {wd q : FsPath} (h : q ≠ []) : wd ++ q ≠ [] := by
  intro hcontr
  rw [List.append_eq_nil] at hcontr
  exact h hcontr.2

/-! ## Helper lemmas: file map reads and writes -/

theorem lookupF_filter_ne (t : List (FsPath × String)) (p q : FsPath) (h : q ≠ p) :
    lookupF (t.filter (fun e => e.1 != p)) q = lookupF t q := by
  induction t with
  | nil => rfl
  | cons e t ih =>
    by_cases he : e.1 = p
    · rw [List.filter_cons_of_neg (by simp [he])]
      rw [ih]
      have hne : ¬ e.1 = q := by rw [he]; exact fun hh => h hh.symm
      simp [lookupF, hne]
    · rw [List.filter_cons_of_pos (by simp [he])]
      by_cases heq : e.1 = q
      · simp [lookupF, heq]
      · simp [lookupF, heq, ih]

theorem readF_writeF_same (fs : FS) (p : FsPath) (c : String) :
    readF (writeF fs p c) p = some c := by
  simp [readF, writeF, lookupF]

theorem readF_writeF_ne (fs : FS) (p q : FsPath) (c : String) (h : q ≠ p) :
    readF (writeF fs p c) q = readF fs q := by
  simp only [readF, writeF]
  have hne : ¬ p = q := fun e => h e.symm
  simp only [lookupF, hne, if_neg hne]
  exact lookupF_filter_ne fs.files p q h

/-! ## Helper lemmas: filesystem primitives -/

theorem splitPath_ne_nil (s : String) : splitPath s ≠ [] := by
  intro h
  have h1 : splitOnChar (Char.ofNat 47) s.data = [] := by
    have h2 := congrArg List.length h
    simp [splitPath] at h2
    exact h2
  exact splitOnChar_ne_nil _ _ h1

theorem isDir_iff (fs : FS) (p : FsPath) : isDir fs p = true ↔ p ∈ fs.dirs := by
  simp [isDir]

theorem isDir_eq_false_iff (fs : FS) (p : FsPath) : isDir fs p = false ↔ p ∉ fs.dirs := by
  rw [← isDir_iff]
  cases isDir fs p <;> simp

theorem isFile_eq_readF (fs : FS) (p : FsPath) : isFile fs p = (readF fs p).isSome := rfl

theorem pathExists_eq_false (fs : FS) (p : FsPath) :
    pathExists fs p = false ↔ isFile fs p = false ∧ isDir fs p = false := by
  unfold pathExists
  cases isFile fs p <;> cases isDir fs p <;> simp

theorem resolveDir_ok (rest : FsPath) : ∀ (fs : FS) (base : FsPath),
    (∀ q : FsPath, q <+: rest → q ≠ [] → isDir fs (base ++ q) = true) →
    resolveDir fs base rest = Except.ok (base ++ rest) := by
  induction rest with
  | nil => intro fs base _; simp [resolveDir]
  | cons c rest2 ih =>
    intro fs base h
    have hc : isDir fs (base ++ [c]) = true :=
      h [c] (by rw [List.cons_prefix_cons]; exact ⟨rfl, List.nil_prefix⟩) (by simp)
    have hrec := ih fs (base ++ [c]) (fun q hq hqne => by
      have := h (c :: q) (by rw [List.cons_prefix_cons]; exact ⟨rfl, hq⟩) (by simp)
      simpa [List.append_assoc] using this)
    simp only [resolveDir]
    rw [if_pos hc, hrec]
    simp [List.append_assoc]

theorem openW_ok (fs : FS) (wd rel : FsPath) (content : String)
    (hchain : ∀ q : FsPath, q <+: rel.dropLast → q ≠ [] → isDir fs (wd ++ q) = true)
    (hnd : isDir fs (wd ++ rel) = false) :
    openW fs wd rel content = Except.ok (writeF fs (wd ++ rel) content) := by
  unfold openW
  rw [resolveDir_ok rel.dropLast fs wd hchain]
  rw [if_neg (by simp [hnd])]

theorem makedirsWalk_ok (rest : FsPath) : ∀ (fs : FS) (base : FsPath),
    rest ≠ [] →
    (∀ q : FsPath, q <+: rest → q ≠ [] → q ≠ rest → isFile fs (base ++ q) = false) →
    pathExists fs (base ++ rest) = false →
    ∃ fs', makedirsWalk fs base rest = Except.ok fs' ∧
      fs'.files = fs.files ∧
      (∀ d ∈ fs.dirs, d ∈ fs'.dirs) ∧
      (∀ dd ∈ fs'.dirs, dd ∈ fs.dirs ∨
        ∃ q : FsPath, q <+: rest ∧ q ≠ [] ∧ dd = base ++ q) ∧
      (∀ q : FsPath, q <+: rest → q ≠ [] → isDir fs' (base ++ q) = true) := by
  induction rest with
  | nil => intro fs base hne _ _; exact absurd rfl hne
  | cons c rest2 ih =>
    intro fs base _ hfile htgt
    cases rest2 with
    | nil =>
      refine ⟨FS.mk fs.files ((base ++ [c]) :: fs.dirs), ?_, rfl,
        fun d hd => List.mem_cons_of_mem _ hd, ?_, ?_⟩
      · have hone : makedirsWalk fs base [c] =
            (if pathExists fs (base ++ [c]) then Except.error PyExn.fileExistsError
             else Except.ok (FS.mk fs.files ((base ++ [c]) :: fs.dirs))) := rfl
        rw [hone, if_neg (by simp [htgt])]
      · intro dd hdd
        rcases List.mem_cons.mp hdd with h | h
        · exact Or.inr ⟨[c], List.prefix_refl _, by simp, h⟩
        · exact Or.inl h
      · intro q hq hqne
        have hlen1 : q.length = 1 := by
          have h1 := hq.length_le
          have h2 := List.length_pos.mpr hqne
          simp at h1
          omega
        have htake := List.prefix_iff_eq_take.mp hq
        rw [hlen1] at htake
        simp at htake
        rw [htake, isDir_iff]
        exact List.mem_cons_self _ _
    | cons c2 rest3 =>
      have hstep : makedirsWalk fs base (c :: c2 :: rest3) =
          (if isDir fs (base ++ [c]) then makedirsWalk fs (base ++ [c]) (c2 :: rest3)
           else if isFile fs (base ++ [c]) then Except.error PyExn.notADirectoryError
           else makedirsWalk (FS.mk fs.files ((base ++ [c]) :: fs.dirs)) (base ++ [c])
             (c2 :: rest3)) := rfl
      have hfc : isFile fs (base ++ [c]) = false :=
        hfile [c] (by rw [List.cons_prefix_cons]; exact ⟨rfl, List.nil_prefix⟩)
          (by simp) (by simp)
      have hfile2 : ∀ fsx : FS, fsx.files = fs.files →
          ∀ q : FsPath, q <+: c2 :: rest3 → q ≠ [] → q ≠ c2 :: rest3 →
          isFile fsx ((base ++ [c]) ++ q) = false := by
        intro fsx hfsx q hq hqne hqprop
        have hq1 : c :: q <+: c :: c2 :: rest3 := by
          rw [List.cons_prefix_cons]
          exact ⟨rfl, hq⟩
        have := hfile (c :: q) hq1 (by simp) (by simp [hqprop])
        have hfx : isFile fsx = isFile fs := by
          unfold isFile
          rw [hfsx]
        rw [hfx]
        simpa [List.append_assoc] using this
      by_cases hdc : isDir fs (base ++ [c]) = true
      · obtain ⟨fs', hw, hfiles, hmono, hchar, hchain⟩ := ih fs (base ++ [c]) (by simp)
          (hfile2 fs rfl) (by simpa [List.append_assoc] using htgt)
        refine ⟨fs', ?_, hfiles, hmono, ?_, ?_⟩
        · rw [hstep, if_pos hdc]
          exact hw
        · intro dd hdd
          rcases hchar dd hdd with h | ⟨q, hq, hqne, hdeq⟩
          · exact Or.inl h
          · refine Or.inr ⟨c :: q, ?_, by simp, ?_⟩
            · rw [List.cons_prefix_cons]
              exact ⟨rfl, hq⟩
            · rw [hdeq]
              simp [List.append_assoc]
        · intro q hq hqne
          cases q with
          | nil => exact absurd rfl hqne
          | cons qc q' =>
            rw [List.cons_prefix_cons] at hq
            obtain ⟨hqc, hq'⟩ := hq
            subst hqc
            by_cases hq'ne : q' = []
            · subst hq'ne
              rw [isDir_iff]
              exact hmono _ ((isDir_iff _ _).mp hdc)
            · have := hchain q' hq' hq'ne
              simpa [List.append_assoc] using this
      · have hdc' : isDir fs (base ++ [c]) = false := by
          cases h : isDir fs (base ++ [c])
          · rfl
          · exact absurd h hdc
        have htgt' : pathExists (FS.mk fs.files ((base ++ [c]) :: fs.dirs))
            ((base ++ [c]) ++ (c2 :: rest3)) = false := by
          rw [pathExists_eq_false]
          obtain ⟨hf0, hd0⟩ := (pathExists_eq_false _ _).mp htgt
          constructor
          · have : isFile (FS.mk fs.files ((base ++ [c]) :: fs.dirs)) = isFile fs := rfl
            rw [this]
            simpa [List.append_assoc] using hf0
          · rw [isDir_eq_false_iff]
            intro hmem
            rcases List.mem_cons.mp hmem with h | h
            · have := congrArg List.length h
              simp at this
            · have hd0' := (isDir_eq_false_iff _ _).mp hd0
              refine hd0' ?_
              have heq : (base ++ [c]) ++ (c2 :: rest3) = base ++ (c :: c2 :: rest3) := by
                simp [List.append_assoc]
              rw [← heq]
              exact h
        obtain ⟨fs', hw, hfiles, hmono, hchar, hchain⟩ :=
          ih (FS.mk fs.files ((base ++ [c]) :: fs.dirs)) (base ++ [c]) (by simp)
            (hfile2 _ rfl) htgt'
        refine ⟨fs', ?_, hfiles, ?_, ?_, ?_⟩
        · rw [hstep, if_neg (by simp [hdc']), if_neg (by simp [hfc])]
          exact hw
        · intro d hd
          exact hmono _ (List.mem_cons_of_mem _ hd)
        · intro dd hdd
          rcases hchar dd hdd with h | ⟨q, hq, hqne, hdeq⟩
          · rcases List.mem_cons.mp h with h1 | h1
            · exact Or.inr ⟨[c], by rw [List.cons_prefix_cons]; exact ⟨rfl, List.nil_prefix⟩,
                by simp, h1⟩
            · exact Or.inl h1
          · refine Or.inr ⟨c :: q, ?_, by simp, ?_⟩
            · rw [List.cons_prefix_cons]
              exact ⟨rfl, hq⟩
            · rw [hdeq]
              simp [List.append_assoc]
        · intro q hq hqne
          cases q with
          | nil => exact absurd rfl hqne
          | cons qc q' =>
            rw [List.cons_prefix_cons] at hq
            obtain ⟨hqc, hq'⟩ := hq
            subst hqc
            by_cases hq'ne : q' = []
            · subst hq'ne
              rw [isDir_iff]
              exact hmono _ (List.mem_cons_self _ _)
            · have := hchain q' hq' hq'ne
              simpa [List.append_assoc] using this

/-- Closure under ancestors survives a creating walk whose added
directories form a chain below an existing base. -/
theorem DirsClosed_extend (fs fs' : FS) (base rest : FsPath)
    (hcl : DirsClosed fs)
    (hbase : ∀ r : FsPath, r <+: base → r ≠ [] → r ∈ fs.dirs)
    (hmono : ∀ d ∈ fs.dirs, d ∈ fs'.dirs)
    (hchar : ∀ dd ∈ fs'.dirs, dd ∈ fs.dirs ∨
      ∃ q : FsPath, q <+: rest ∧ q ≠ [] ∧ dd = base ++ q)
    (hchain : ∀ q : FsPath, q <+: rest → q ≠ [] → isDir fs' (base ++ q) = true) :
    DirsClosed fs' := by
  intro dd hdd r hr hrne
  rcases hchar dd hdd with hold | ⟨q, hq, hqne, hdeq⟩
  · exact hmono _ (hcl dd hold r hr hrne)
  · rw [hdeq] at hr
    rcases prefix_append_cases hr with hr1 | ⟨q', hq', hreq⟩
    · exact hmono _ (hbase r hr1 hrne)
    · by_cases hq'ne : q' = []
      · rw [hq'ne, List.append_nil] at hreq
        rw [hreq]
        refine hmono _ (hbase base (List.prefix_refl _) ?_)
        rw [← hreq]
        exact hrne
      · rw [hreq, ← isDir_iff]
        exact hchain q' (hq'.trans hq) hq'ne

/-! ## Helper lemmas: staging -/

/-- The two syntactic branches of the staging loop body are identical;
collapsing them. -/
theorem stageFile_eq (mc : String) (st : PState) (fc : String × String) :
    stageFile mc st fc = stageFileBody st fc := by
  unfold stageFile
  split <;> rfl

theorem stageFile_ok (mc : String) (st : PState) (fc : String × String)
    (hd : (splitPath fc.1).dropLast ≠ [])
    (hpf : ∀ q : FsPath, q <+: splitPath fc.1 → q ≠ [] → q ≠ splitPath fc.1 →
      isFile st.fs (st.wd ++ q) = false)
    (hnd : isDir st.fs (st.wd ++ splitPath fc.1) = false)
    (hcl : DirsClosed st.fs) (hwd : WdOk st) :
    ∃ fs', stageFile mc st fc = Except.ok (PState.mk fs' st.wd st.solc) ∧
      readF fs' (st.wd ++ splitPath fc.1) = some fc.2 ∧
      (∀ p, p ≠ st.wd ++ splitPath fc.1 → readF fs' p = readF st.fs p) ∧
      (∀ d ∈ st.fs.dirs, d ∈ fs'.dirs) ∧
      (∀ dd ∈ fs'.dirs, dd ∈ st.fs.dirs ∨
        ∃ q : FsPath, q <+: (splitPath fc.1).dropLast ∧ q ≠ [] ∧ dd = st.wd ++ q) ∧
      (∀ q : FsPath, q <+: (splitPath fc.1).dropLast → q ≠ [] →
        isDir fs' (st.wd ++ q) = true) ∧
      DirsClosed fs' := by
  rw [stageFile_eq]
  have hcomps : splitPath fc.1 ≠ [] := splitPath_ne_nil fc.1
  have hlpos : 0 < (splitPath fc.1).length := List.length_pos.mpr hcomps
  have hdpre : (splitPath fc.1).dropLast <+: splitPath fc.1 := List.dropLast_prefix _
  have hpf' : ∀ q : FsPath, q <+: (splitPath fc.1).dropLast → q ≠ [] →
      isFile st.fs (st.wd ++ q) = false := by
    intro q hq hqne
    refine hpf q (hq.trans hdpre) hqne ?_
    intro heq
    have h1 := hq.length_le
    rw [List.length_dropLast, heq] at h1
    omega
  by_cases hex : dirnameExists st.fs st.wd ((splitPath fc.1).dropLast) = true
  · have hpe : pathExists st.fs (st.wd ++ (splitPath fc.1).dropLast) = true := by
      unfold dirnameExists at hex
      rw [if_neg hd] at hex
      exact hex
    have hfd : isFile st.fs (st.wd ++ (splitPath fc.1).dropLast) = false :=
      hpf' _ (List.prefix_refl _) hd
    have hdd : isDir st.fs (st.wd ++ (splitPath fc.1).dropLast) = true := by
      unfold pathExists at hpe
      rw [hfd] at hpe
      simpa using hpe
    have hmem : st.wd ++ (splitPath fc.1).dropLast ∈ st.fs.dirs := (isDir_iff _ _).mp hdd
    have hchain : ∀ q : FsPath, q <+: (splitPath fc.1).dropLast → q ≠ [] →
        isDir st.fs (st.wd ++ q) = true := by
      intro q hq hqne
      rw [isDir_iff]
      exact hcl _ hmem _ (append_prefix_mono hq) (append_ne_nil_right hqne)
    have hopen := openW_ok st.fs st.wd (splitPath fc.1) fc.2 hchain hnd
    refine ⟨(writeF st.fs (st.wd ++ splitPath fc.1) fc.2), ?_, readF_writeF_same _ _ _,
      fun p hp => readF_writeF_ne _ _ _ _ hp, fun d hd => hd, fun dd hdd => Or.inl hdd,
      hchain, hcl⟩
    simp only [stageFileBody]
    rw [if_pos hex, hopen]
  · have hex' : dirnameExists st.fs st.wd ((splitPath fc.1).dropLast) = false := by
      cases h : dirnameExists st.fs st.wd ((splitPath fc.1).dropLast)
      · rfl
      · exact absurd h hex
    have hpe : pathExists st.fs (st.wd ++ (splitPath fc.1).dropLast) = false := by
      unfold dirnameExists at hex'
      rw [if_neg hd] at hex'
      exact hex'
    obtain ⟨fs1, hw, hfiles1, hmono1, hchar1, hchain1⟩ :=
      makedirsWalk_ok ((splitPath fc.1).dropLast) st.fs st.wd hd
        (fun q hq hqne _ => hpf' q hq hqne) hpe
    have hcl1 : DirsClosed fs1 :=
      DirsClosed_extend st.fs fs1 st.wd ((splitPath fc.1).dropLast) hcl
        (fun r hr hrne => hwd r hr hrne) hmono1 hchar1 hchain1
    have hnd1 : isDir fs1 (st.wd ++ splitPath fc.1) = false := by
      rw [isDir_eq_false_iff]
      intro hmem
      rcases hchar1 _ hmem with h | ⟨q, hq, hqne, heq⟩
      · exact (isDir_eq_false_iff _ _).mp hnd h
      · have h1 := List.append_cancel_left heq
        have h2 := hq.length_le
        rw [← h1, List.length_dropLast] at h2
        omega
    have hopen := openW_ok fs1 st.wd (splitPath fc.1) fc.2 hchain1 hnd1
    refine ⟨(writeF fs1 (st.wd ++ splitPath fc.1) fc.2), ?_, readF_writeF_same _ _ _,
      ?_, fun d hd => hmono1 d hd, hchar1, hchain1, hcl1⟩
    · simp only [stageFileBody]
      rw [if_neg (by simp [hex'])]
      unfold makedirsE
      rw [if_neg hd, hw]
      dsimp only
      rw [hopen]
    · intro p hp
      rw [readF_writeF_ne _ _ _ _ hp]
      unfold readF
      rw [hfiles1]

/-- The pairwise prefix-freeness two staged paths must satisfy: neither
is a path-prefix of the other (a file cannot double as a directory). -/
def PrefixFree (a b : String × String) : Prop :=
  ¬ splitPath a.1 <+: splitPath b.1 ∧ ¬ splitPath b.1 <+: splitPath a.1

theorem stageMulti_faithful (mc : String) (sources : List (String × String)) :
    ∀ st : PState,
    (∀ fc ∈ sources, (splitPath fc.1).dropLast ≠ []) →
    sources.Pairwise PrefixFree →
    (∀ fc ∈ sources, ∀ q : FsPath, q <+: splitPath fc.1 → q ≠ [] →
      q ≠ splitPath fc.1 → isFile st.fs (st.wd ++ q) = false) →
    (∀ fc ∈ sources, isDir st.fs (st.wd ++ splitPath fc.1) = false) →
    DirsClosed st.fs → WdOk st →
    ∃ st', stageMulti mc st sources = Except.ok st' ∧
      st'.wd = st.wd ∧ st'.solc = st.solc ∧
      (∀ d ∈ st.fs.dirs, d ∈ st'.fs.dirs) ∧
      DirsClosed st'.fs ∧
      (∀ p, (∀ fc ∈ sources, p ≠ st.wd ++ splitPath fc.1) →
        readF st'.fs p = readF st.fs p) ∧
      (∀ fc ∈ sources, readF st'.fs (st.wd ++ splitPath fc.1) = some fc.2) ∧
      (∀ fc ∈ sources, ∀ q : FsPath, q <+: (splitPath fc.1).dropLast → q ≠ [] →
        isDir st'.fs (st.wd ++ q) = true) := by
  induction sources with
  | nil =>
    intro st _ _ _ _ hcl hwd
    exact ⟨st, rfl, rfl, rfl, fun d hd => hd, hcl, fun p _ => rfl, by simp, by simp⟩
  | cons fc rest ih =>
    intro st h hpw hfile hndir hcl hwd
    have hR : ∀ gc ∈ rest, PrefixFree fc gc := (List.pairwise_cons.mp hpw).1
    have hpwr : rest.Pairwise PrefixFree := (List.pairwise_cons.mp hpw).2
    obtain ⟨fs1, hsf, hread1, hframe1, hmono1, hchar1, hchain1, hcl1⟩ :=
      stageFile_ok mc st fc (h fc (by simp)) (hfile fc (by simp)) (hndir fc (by simp))
        hcl hwd
    have hwd1 : WdOk (PState.mk fs1 st.wd st.solc) :=
      fun q hq hqne => hmono1 _ (hwd q hq hqne)
    have hkeys : ∀ gc ∈ rest, st.wd ++ splitPath fc.1 ≠ st.wd ++ splitPath gc.1 := by
      intro gc hgc heq
      have h1 := List.append_cancel_left heq
      exact (hR gc hgc).1 (h1 ▸ List.prefix_refl _)
    have hfile1 : ∀ gc ∈ rest, ∀ q : FsPath, q <+: splitPath gc.1 → q ≠ [] →
        q ≠ splitPath gc.1 → isFile fs1 (st.wd ++ q) = false := by
      intro gc hgc q hq hqne hqprop
      have hne : st.wd ++ q ≠ st.wd ++ splitPath fc.1 := by
        intro heq
        have h1 := List.append_cancel_left heq
        exact (hR gc hgc).1 (h1 ▸ hq)
      rw [isFile_eq_readF, hframe1 _ hne, ← isFile_eq_readF]
      exact hfile gc (List.mem_cons_of_mem _ hgc) q hq hqne hqprop
    have hndir1 : ∀ gc ∈ rest, isDir fs1 (st.wd ++ splitPath gc.1) = false := by
      intro gc hgc
      rw [isDir_eq_false_iff]
      intro hmem
      rcases hchar1 _ hmem with h1 | ⟨q, hq, hqne, heq⟩
      · exact (isDir_eq_false_iff _ _).mp (hndir gc (List.mem_cons_of_mem _ hgc)) h1
      · have h1 := List.append_cancel_left heq
        have h2 : splitPath gc.1 <+: splitPath fc.1 :=
          (h1 ▸ hq).trans (List.dropLast_prefix _)
        exact (hR gc hgc).2 h2
    obtain ⟨st', hrun, hwdeq, hsolc, hmono2, hcl2, hframe2, hread2, hchain2⟩ :=
      ih (PState.mk fs1 st.wd st.solc)
        (fun gc hgc => h gc (List.mem_cons_of_mem _ hgc)) hpwr hfile1 hndir1 hcl1 hwd1
    refine ⟨st', ?_, hwdeq, hsolc, ?_, hcl2, ?_, ?_, ?_⟩
    · simp only [stageMulti]
      rw [hsf]
      exact hrun
    · exact fun d hd => hmono2 d (hmono1 d hd)
    · intro p hp
      rw [hframe2 p (fun gc hgc => hp gc (List.mem_cons_of_mem _ hgc))]
      exact hframe1 p (hp fc (by simp))
    · intro gc hgc
      rcases List.mem_cons.mp hgc with heq | hmem
      · subst heq
        rw [hframe2 _ hkeys]
        exact hread1
      · exact hread2 gc hmem
    · intro gc hgc q hq hqne
      rcases List.mem_cons.mp hgc with heq | hmem
      · subst heq
        rw [isDir_iff]
        exact hmono2 _ ((isDir_iff _ _).mp (hchain1 q hq hqne))
      · exact hchain2 gc hmem q hq hqne

/-! ## Helper lemmas: workspace preparation -/

theorem workspacePrep_ok (root : FsPath) (st : PState)
    (hne : root ≠ [])
    (hfiles : ∀ q : FsPath, q ≠ [] → q <+: root → isFile st.fs (st.wd ++ q) = false)
    (hcl : DirsClosed st.fs) (hwd : WdOk st) :
    ∃ fs2, workspacePrep root st = Except.ok (PState.mk fs2 (st.wd ++ root) st.solc) ∧
      fs2.files = st.fs.files ∧
      (∀ d ∈ st.fs.dirs, d ∈ fs2.dirs) ∧
      (∀ dd ∈ fs2.dirs, dd ∈ st.fs.dirs ∨
        ∃ q : FsPath, q <+: root ∧ q ≠ [] ∧ dd = st.wd ++ q) ∧
      DirsClosed fs2 ∧
      WdOk (PState.mk fs2 (st.wd ++ root) st.solc) := by
  by_cases hex : pathExists st.fs (st.wd ++ root) = true
  · have hfr : isFile st.fs (st.wd ++ root) = false := hfiles root hne (List.prefix_refl _)
    have hdr : isDir st.fs (st.wd ++ root) = true := by
      unfold pathExists at hex
      rw [hfr] at hex
      simpa using hex
    have hmem : st.wd ++ root ∈ st.fs.dirs := (isDir_iff _ _).mp hdr
    have hchain : ∀ q : FsPath, q <+: root → q ≠ [] → isDir st.fs (st.wd ++ q) = true := by
      intro q hq hqne
      rw [isDir_iff]
      exact hcl _ hmem _ (append_prefix_mono hq) (append_ne_nil_right hqne)
    refine ⟨st.fs, ?_, rfl, fun d hd => hd, fun dd hdd => Or.inl hdd, hcl, ?_⟩
    · unfold workspacePrep
      rw [if_pos hex]
      dsimp only
      unfold chdirE
      rw [resolveDir_ok root.dropLast st.fs st.wd
        (fun q hq hqne => hchain q (hq.trans (List.dropLast_prefix _)) hqne)]
      dsimp only
      rw [if_pos hdr]
    · intro r hr hrne
      rcases prefix_append_cases hr with hr1 | ⟨q, hq, hreq⟩
      · exact hwd r hr1 hrne
      · by_cases hqne : q = []
        · rw [hqne, List.append_nil] at hreq
          rw [hreq]
          refine hwd st.wd (List.prefix_refl _) ?_
          rw [← hreq]
          exact hrne
        · rw [hreq, ← isDir_iff]
          exact hchain q hq hqne
  · have hex' : pathExists st.fs (st.wd ++ root) = false := by
      cases h : pathExists st.fs (st.wd ++ root)
      · rfl
      · exact absurd h hex
    obtain ⟨fs2, hw, hfiles2, hmono2, hchar2, hchain2⟩ :=
      makedirsWalk_ok root st.fs st.wd hne
        (fun q hq hqne _ => hfiles q hqne hq) hex'
    have hcl2 : DirsClosed fs2 :=
      DirsClosed_extend st.fs fs2 st.wd root hcl (fun r hr hrne => hwd r hr hrne)
        hmono2 hchar2 hchain2
    refine ⟨fs2, ?_, hfiles2, hmono2, hchar2, hcl2, ?_⟩
    · unfold workspacePrep
      rw [if_neg (by simp [hex'])]
      unfold makedirsE
      rw [if_neg hne, hw]
      dsimp only
      unfold chdirE
      rw [resolveDir_ok root.dropLast fs2 st.wd
        (fun q hq hqne => hchain2 q (hq.trans (List.dropLast_prefix _)) hqne)]
      dsimp only
      rw [if_pos (hchain2 root (List.prefix_refl _) hne)]
    · intro r hr hrne
      rcases prefix_append_cases hr with hr1 | ⟨q, hq, hreq⟩
      · exact hmono2 _ (hwd r hr1 hrne)
      · by_cases hqne : q = []
        · rw [hqne, List.append_nil] at hreq
          rw [hreq]
          refine hmono2 _ (hwd st.wd (List.prefix_refl _) ?_)
          rw [← hreq]
          exact hrne
        · rw [hreq, ← isDir_iff]
          exact hchain2 q hq hqne

/-! ## Helper lemmas: substring test -/

theorem containsSubL_iff (needle hay : List Char) :
    containsSubL needle hay = true ↔ needle <:+: hay := by
  induction hay with
  | nil =>
    simp only [containsSubL, List.isEmpty_iff]
    constructor
    · intro h
      rw [h]
    · intro h
      exact List.eq_nil_of_infix_nil h
  | cons c cs ih =>
    simp only [containsSubL, Bool.or_eq_true, List.isPrefixOf_iff_prefix, ih,
      List.infix_cons_iff]

theorem containsSub_iff (hay needle : String) :
    containsSub hay needle = true ↔ needle.data <:+: hay.data :=
  containsSubL_iff needle.data hay.data

/-! ## Helper lemmas: last-match scan of the entry resolver -/

theorem foldl_lastMatch (p : String × String → Bool) (l : List (String × String)) :
    ∀ a : String,
    l.foldl (fun mc fc => if p fc then fc.1 else mc) a =
      (match l.reverse.find? p with
       | some fc => fc.1
       | none => a) := by
  induction l with
  | nil => intro a; rfl
  | cons fc t ih =>
    intro a
    simp only [List.foldl_cons]
    rw [ih]
    simp only [List.reverse_cons, List.find?_append]
    cases h : t.reverse.find? p with
    | some x => rfl
    | none =>
      cases hp : p fc <;> simp [List.find?, hp, Option.or]

/-! ## Helper lemmas: teardown -/

theorem lookupF_filter_under (files : List (FsPath × String)) (w p : FsPath) :
    lookupF (files.filter (fun e => !(isStrictUnder w e.1))) p =
      (if isStrictUnder w p then none else lookupF files p) := by
  induction files with
  | nil => simp [lookupF]
  | cons e t ih =>
    by_cases hu : isStrictUnder w e.1 = true
    · rw [List.filter_cons_of_neg (by simp [hu])]
      rw [ih]
      by_cases hep : e.1 = p
      · have hup : isStrictUnder w p = true := hep ▸ hu
        simp [hup]
      · simp [lookupF, hep]
    · rw [List.filter_cons_of_pos (by simp [hu])]
      by_cases hep : e.1 = p
      · have hup : isStrictUnder w p = false := by
          rw [← hep]
          simp [hu]
        simp [lookupF, hep, hup]
      · simp only [lookupF, if_neg hep]
        exact ih

/-! ## Helper lemmas: pragma-line scan -/

theorem firstPragmaVersion_split (pre : List String) (l : String) (post : List String)
    (hpre : ∀ s ∈ pre, containsSub s pragmaNeedle = false)
    (hl : containsSub l pragmaNeedle = true) :
    firstPragmaVersion (pre ++ l :: post) =
      (match findVersion l with
       | some v => Except.ok v
       | none => Except.error PyExn.attributeError) := by
  induction pre with
  | nil => simp [firstPragmaVersion, hl]
  | cons s t ih =>
    have hs := hpre s (by simp)
    simp only [List.cons_append, firstPragmaVersion, hs]
    simp only [Bool.false_eq_true, if_false]
    exact ih (fun x hx => hpre x (List.mem_cons_of_mem _ hx))

theorem firstPragmaVersion_none (ls : List String)
    (h : ∀ s ∈ ls, containsSub s pragmaNeedle = false) :
    firstPragmaVersion ls = Except.ok "" := by
  induction ls with
  | nil => rfl
  | cons s t ih =>
    have hs := h s (by simp)
    simp only [firstPragmaVersion, hs, Bool.false_eq_true, if_false]
    exact ih (fun x hx => h x (List.mem_cons_of_mem _ hx))

/-! ## Helper lemmas: leftmost regex match -/

theorem searchV_eq_none (cs : List Char) (h : ∀ i, matchVAt (cs.drop i) = none) :
    searchV cs = none := by
  induction cs with
  | nil => rfl
  | cons c t ih =>
    have h0 := h 0
    simp only [List.drop_zero] at h0
    simp only [searchV, h0]
    exact ih (fun i => by simpa using h (i + 1))

theorem searchV_first (cs : List Char) :
    ∀ (i : Nat) (g : List Char), matchVAt (cs.drop i) = some g →
    (∀ j, j < i → matchVAt (cs.drop j) = none) → searchV cs = some g := by
  induction cs with
  | nil =>
    intro i g hm _
    rw [List.drop_nil] at hm
    exact absurd hm (by simp [matchVAt])
  | cons c t ih =>
    intro i g hm hn
    cases i with
    | zero =>
      rw [List.drop_zero] at hm
      simp only [searchV, hm]
    | succ i' =>
      have h0 := hn 0 (Nat.succ_pos i')
      rw [List.drop_zero] at h0
      simp only [searchV, h0]
      exact ih i' g (by simpa using hm) (fun j hj => by simpa using hn (j + 1) (by omega))

/-! ## Helper lemmas: result normalization -/

theorem foldl_append_map (g : List RawIssue) :
    ∀ acc : List Finding,
    g.foldl (fun acc2 issue => acc2 ++ [projectIssue issue]) acc = acc ++ g.map projectIssue := by
  induction g with
  | nil => intro acc; simp
  | cons i t ih =>
    intro acc
    simp only [List.foldl_cons, List.map_cons]
    rw [ih]
    simp

theorem analyze_contract_code_foldl (results : List (List RawIssue)) :
    ∀ acc : List Finding,
    results.foldl
      (fun acc result =>
        if result ≠ [] then
          result.foldl (fun acc2 issue => acc2 ++ [projectIssue issue]) acc
        else acc)
      acc = acc ++ (results.map (fun g => g.map projectIssue)).flatten := by
  induction results with
  | nil => intro acc; simp
  | cons g t ih =>
    intro acc
    simp only [List.foldl_cons, List.map_cons, List.flatten_cons]
    by_cases hg : g = []
    · rw [if_neg (by simp [hg])]
      rw [ih, hg]
      simp
    · rw [if_pos (by simp [hg])]
      rw [foldl_append_map, ih]
      simp

/-- Equality of `Except` results is decidable (needed to evaluate the
embedded functions on concrete inputs). -/
def exceptDecEq {ε α : Type} [DecidableEq ε] [DecidableEq α] : DecidableEq (Except ε α)
  | Except.error e, Except.error f =>
    if h : e = f then isTrue (by rw [h]) else isFalse (fun hh => h (Except.error.inj hh))
  | Except.error _, Except.ok _ => isFalse (fun hh => Except.noConfusion hh)
  | Except.ok _, Except.error _ => isFalse (fun hh => Except.noConfusion hh)
  | Except.ok a, Except.ok b =>
    if h : a = b then isTrue (by rw [h]) else isFalse (fun hh => h (Except.ok.inj hh))

instance {ε α : Type} [DecidableEq ε] [DecidableEq α] : DecidableEq (Except ε α) :=
  exceptDecEq

/-! ## Concrete fixtures -/

/-- A fresh process state: empty filesystem, working directory at the root. -/
def st0 : PState := PState.mk (FS.mk [] []) [] ""

/-- A one-line raw source with a caret pragma. -/
def pragmaExample : String := "pragma solidity ^0.8.10;"

/-- The version the pragma example should produce. -/
def ver0810 : String := "0.8.10"

/-- A source with no pragma line. -/
def noPragmaExample : String := "contract A is B"

/-- A pragma line with only a two-component version. -/
def badPragmaExample : String := "pragma solidity ^0.8;"

/-- An explorer-style compiler version tag. -/
def compilerExample : String := "v0.8.19+commit.7dd6d404"

/-- The version the compiler tag should produce. -/
def ver0819 : String := "0.8.19"

/-! ## Claim theorems -/

/-- C6: pragma-based version extraction on a source containing the line
`pragma solidity ^0.8.10;` (as its first pragma line) yields `0.8.10`,
and on a source with no line containing `pragma solidity` yields the
empty version spec. -/
theorem extract_from_pragma_spec :
    firstPragmaVersion (pyLines pragmaExample) = Except.ok ver0810 ∧
    ∀ code : String, (∀ l ∈ pyLines code, containsSub l pragmaNeedle = false) →
      firstPragmaVersion (pyLines code) = Except.ok ("") := by
  constructor
  · decide
  · intro code h
    exact firstPragmaVersion_none (pyLines code) h

/-- C6 witness: the two cases at concrete inputs. -/
theorem extract_from_pragma_spec_witness :
    firstPragmaVersion (pyLines pragmaExample) = Except.ok ver0810 ∧
    firstPragmaVersion (pyLines noPragmaExample) = Except.ok ("") :=
  ⟨extract_from_pragma_spec.1, extract_from_pragma_spec.2 noPragmaExample (by decide)⟩

/-- C7: compiler-version derivation returns the captured group of the
leftmost match of `v(\d+\.\d+\.\d+)` (the position before which no match
starts), and the empty string when no position matches. -/
theorem get_solidity_version_spec (s : String) :
    ((∀ i : Nat, matchVAt (s.data.drop i) = none) → get_solidity_version s = "") ∧
    (∀ (i : Nat) (g : List Char), matchVAt (s.data.drop i) = some g →
      (∀ j, j < i → matchVAt (s.data.drop j) = none) →
      get_solidity_version s = String.mk g) := by
  constructor
  · intro h
    unfold get_solidity_version
    rw [searchV_eq_none s.data h]
  · intro i g hm hn
    unfold get_solidity_version
    rw [searchV_first s.data i g hm hn]

/-- C7 witness: a matching tag and a tag with no match. -/
theorem get_solidity_version_spec_witness :
    get_solidity_version compilerExample = ver0819 ∧
    get_solidity_version ("xy") = "" := by
  constructor
  · exact (get_solidity_version_spec compilerExample).2 0 ver0819.data (by decide)
      (fun j hj => absurd hj (Nat.not_lt_zero j))
  · refine (get_solidity_version_spec ("xy")).1 ?_
    intro i
    match i with
    | 0 => decide
    | 1 => decide
    | n + 2 =>
      have hlen : ("xy").data.length ≤ n + 2 := by
        have h2 : ("xy").data.length = 2 := by decide
        omega
      rw [List.drop_eq_nil_of_le hlen]
      decide

/-- C8: normalization returns, in order, the projection of every finding
of every group to exactly the four fields check, description, impact and
confidence; empty groups contribute nothing. -/
theorem result_normalization_projects (results : List (List RawIssue)) :
    analyze_contract_code results = (results.map (fun g => g.map projectIssue)).flatten := by
  have h := analyze_contract_code_foldl results []
  simpa [analyze_contract_code] using h

/-- C9: with neither blockchain+address nor code supplied, the handler
answers the MissingIdentifiers 400 error and the process state (files,
directories, working directory) is exactly unchanged: no staging
occurred. -/
theorem missing_identifiers_no_staging
    (blockchain contract_address code : Option String)
    (resp : ExplorerResp) (rawResults : List (List RawIssue)) (st : PState)
    (hba : truthy blockchain = false ∨ truthy contract_address = false)
    (hc : truthy code = false) :
    analyze_contract blockchain contract_address code resp rawResults st =
      Except.ok (HandlerResp.clientError errMissing, st) ∧
    respStatus (HandlerResp.clientError errMissing) = 400 := by
  constructor
  · unfold analyze_contract
    have hcond : (!truthy blockchain || !truthy contract_address) = true := by
      rcases hba with h | h <;> simp [h]
    rw [if_pos hcond, if_neg (by simp [hc])]
  · rfl

/-- C9 witness: the fully absent request. -/
theorem missing_identifiers_no_staging_witness :
    analyze_contract none none none
        (ExplorerResp.mk 200 (SourceEnvelope.single ("")) ("") ("")) [] st0 =
      Except.ok (HandlerResp.clientError errMissing, st0) ∧
    respStatus (HandlerResp.clientError errMissing) = 400 :=
  missing_identifiers_no_staging none none none
    (ExplorerResp.mk 200 (SourceEnvelope.single ("")) ("") ("")) [] st0 (Or.inl rfl) rfl

/-- C10: on a raw-code submission whose first `pragma solidity` line has
no three-component version substring, `get_contract_code` raises an
exception instead of returning (first conjunct, for every starting
state); when the fixed raw workspace path is unobstructed (no file on
its chain, well-formed directories, no directory at the target file),
the exception is exactly the AttributeError of `.group(0)` on a failed
search (second conjunct). -/
theorem raw_code_bad_pragma_raises (code : String) (st : PState)
    (pre : List String) (l : String) (post : List String)
    (hsplit : pyLines code = pre ++ l :: post)
    (hpre : ∀ s ∈ pre, containsSub s pragmaNeedle = false)
    (hl : containsSub l pragmaNeedle = true)
    (hv : findVersion l = none) :
    (∃ e : PyExn, get_contract_code_raw code st = Except.error e) ∧
    ((∀ q : FsPath, q ≠ [] → q <+: ["contracts", "no-bc", "contract"] →
        isFile st.fs (st.wd ++ q) = false) →
      DirsClosed st.fs → WdOk st →
      isDir st.fs (st.wd ++ ["contracts", "no-bc", "contract", "contract.sol"]) = false →
      get_contract_code_raw code st = Except.error PyExn.attributeError) := by
  have hscan : firstPragmaVersion (pyLines code) = Except.error PyExn.attributeError := by
    rw [hsplit, firstPragmaVersion_split pre l post hpre hl, hv]
  constructor
  · unfold get_contract_code_raw
    cases hprep : workspacePrep ["contracts", "no-bc", "contract"] st with
    | error e => exact ⟨e, rfl⟩
    | ok st2 =>
      dsimp only
      cases hopen : openW st2.fs st2.wd ["contract.sol"] code with
      | error e => exact ⟨e, rfl⟩
      | ok fs3 =>
        refine ⟨PyExn.attributeError, ?_⟩
        dsimp only
        rw [hscan]
  · intro hws hcl hwd hcs
    obtain ⟨fs2, hprep, hfiles2, _, hchar2, _, _⟩ :=
      workspacePrep_ok ["contracts", "no-bc", "contract"] st (by simp) hws hcl hwd
    have hnd : isDir fs2
        ((st.wd ++ ["contracts", "no-bc", "contract"]) ++ ["contract.sol"]) = false := by
      rw [isDir_eq_false_iff]
      intro hmem
      rcases hchar2 _ hmem with h | ⟨q, hq, hqne, heq⟩
      · refine (isDir_eq_false_iff _ _).mp hcs ?_
        simpa [List.append_assoc] using h
      · rw [List.append_assoc] at heq
        have h1 := List.append_cancel_left heq
        have h2 := hq.length_le
        rw [← h1] at h2
        simp at h2
    have hopen := openW_ok fs2 (st.wd ++ ["contracts", "no-bc", "contract"])
      ["contract.sol"] code
      (fun q hq hqne => absurd (List.prefix_nil.mp hq) hqne) hnd
    unfold get_contract_code_raw
    rw [hprep]
    dsimp only
    rw [hopen]
    dsimp only
    rw [hscan]

/-- C10 witness: `pragma solidity ^0.8;` raises the AttributeError from
the fresh root state. -/
theorem raw_code_bad_pragma_raises_witness :
    get_contract_code_raw badPragmaExample st0 = Except.error PyExn.attributeError :=
  (raw_code_bad_pragma_raises badPragmaExample st0 [] badPragmaExample [] (by decide)
    (fun s hs => absurd hs (List.not_mem_nil s)) (by decide) (by decide)).2
    (fun q _ _ => rfl)
    (fun d hd => absurd hd (List.not_mem_nil d))
    (fun q hq hqne => by
      simp [st0, List.prefix_nil] at hq
      exact absurd hq hqne)
    rfl

/-- A state as left behind by raw-code staging: working directory three
levels below the pre-staging context. -/
def stagedRawSt : PState :=
  PState.mk (FS.mk [] []) ["contracts", "no-bc", "contract"] ""

/-- C5 counterexample: teardown from a staged working directory does not
end one level above the deletion directory (`wd.dropLast.dropLast`); it
ends two levels above it, at the root. -/
theorem teardown_not_one_more_level :
    (delete_contract_directory stagedRawSt).wd = [] ∧
    stagedRawSt.wd.dropLast.dropLast = ["contracts"] ∧
    (delete_contract_directory stagedRawSt).wd ≠ stagedRawSt.wd.dropLast.dropLast := by
  refine ⟨rfl, rfl, ?_⟩
  decide

/-- C5 amended: teardown moves up one level, deletes every entry of the
now-current directory (all files and directories strictly below it,
everything else untouched), then moves up two more levels, which
restores the context that was active before the three-level-deep staging
descent. -/
theorem teardown_spec (st : PState) :
    (delete_contract_directory st).wd = st.wd.dropLast.dropLast.dropLast ∧
    (∀ p : FsPath, isStrictUnder st.wd.dropLast p = true →
      readF (delete_contract_directory st).fs p = none) ∧
    (∀ p : FsPath, isStrictUnder st.wd.dropLast p = false →
      readF (delete_contract_directory st).fs p = readF st.fs p) ∧
    (∀ d : FsPath, d ∈ (delete_contract_directory st).fs.dirs ↔
      d ∈ st.fs.dirs ∧ isStrictUnder st.wd.dropLast d = false) ∧
    (∀ (base : FsPath) (a b c : String), st.wd = base ++ [a, b, c] →
      (delete_contract_directory st).wd = base) := by
  refine ⟨rfl, ?_, ?_, ?_, ?_⟩
  · intro p hp
    simp only [delete_contract_directory, readF]
    rw [lookupF_filter_under st.fs.files st.wd.dropLast p, if_pos hp]
  · intro p hp
    simp only [delete_contract_directory, readF]
    rw [lookupF_filter_under st.fs.files st.wd.dropLast p, if_neg (by simp [hp])]
  · intro d
    simp only [delete_contract_directory, List.mem_filter, Bool.not_eq_true']
  · intro base a b c h
    show st.wd.dropLast.dropLast.dropLast = base
    rw [h]
    have e1 : base ++ [a, b, c] = (base ++ [a, b]) ++ [c] := by simp
    rw [e1, List.dropLast_concat]
    have e2 : base ++ [a, b] = (base ++ [a]) ++ [b] := by simp
    rw [e2, List.dropLast_concat, List.dropLast_concat]

/-- A staged explorer workspace with one written file, used to evaluate
teardown concretely. -/
def stagedBcSt : PState :=
  PState.mk
    (FS.mk [(["contracts", "eth", "0x1", "src", "A.sol"], "contract A is B")]
      [["contracts"], ["contracts", "eth"], ["contracts", "eth", "0x1"],
        ["contracts", "eth", "0x1", "src"]])
    ["contracts", "eth", "0x1"] ""

/-- C5 witness: teardown of the staged workspace deletes the staged file
and restores the root working directory. -/
theorem teardown_spec_witness :
    (delete_contract_directory stagedBcSt).wd = [] ∧
    readF (delete_contract_directory stagedBcSt).fs
      ["contracts", "eth", "0x1", "src", "A.sol"] = none :=
  ⟨(teardown_spec stagedBcSt).2.2.2.2 [] ("contracts") ("eth") ("0x1") (by decide),
   (teardown_spec stagedBcSt).2.1 ["contracts", "eth", "0x1", "src", "A.sol"] (by decide)⟩

/-- A two-line raw single-file payload. -/
def rawMultiline : String := "line1\nline2"

/-- The content actually staged for `rawMultiline`: the interior newline
is gone, because `split("\n")` removed the separators and `writelines`
re-inserted nothing. -/
def stagedC1 : String := "\n\n\n\nline1line2"

/-- Four leading blank lines. -/
def fourNl : String := "\n\n\n\n"

/-- The explorer response for the C1 evaluation. -/
def respC1 : ExplorerResp :=
  ExplorerResp.mk 200 (SourceEnvelope.single rawMultiline) compilerExample ("A")

/-- C1 (bug evaluation): staging the two-line single-file envelope writes
`A.sol`, returns its name, but the staged content is the four newlines
followed by the raw code with its interior newline REMOVED — the original
line structure is not preserved. -/
theorem single_file_staging_drops_newlines :
    (get_contract_code_bc ("eth") ("0x1") respC1 st0).map
        (fun r => (r.1, readF r.2.fs (r.2.wd ++ [("A.sol")]))) =
      Except.ok (some ("A.sol"), some stagedC1) ∧
    stagedC1 ≠ fourNl ++ rawMultiline := by
  refine ⟨by decide, by decide⟩

/-- The multi-file envelope for the C4 evaluation: one nested file, no
content matching `contract Vault`. -/
def srcC4 : List (String × String) := [("src/A.sol", "library L")]

/-- The explorer response for the C4 evaluation. -/
def respC4 : ExplorerResp :=
  ExplorerResp.mk 200 (SourceEnvelope.multi srcC4) compilerExample ("Vault")

/-- The handler run for the C4 evaluation. -/
def runC4 : Except PyExn (HandlerResp × PState) :=
  analyze_contract (some ("eth")) (some ("0x1")) none respC4 [] st0

/-- C4 (bug evaluation): when entry resolution fails after staging, the
handler returns the client error WITHOUT teardown: the final state is
still inside the workspace and the staged file is still on disk. -/
theorem error_after_staging_skips_teardown :
    runC4.map Prod.fst = Except.ok (HandlerResp.clientError errRetrieve) ∧
    runC4.map (fun r => r.2.wd) = Except.ok (["contracts", "eth", "0x1"]) ∧
    (["contracts", "eth", "0x1"] : FsPath) ≠ st0.wd ∧
    runC4.map (fun r => readF r.2.fs ["contracts", "eth", "0x1", "src", "A.sol"]) =
      Except.ok (some ("library L")) := by
  refine ⟨by decide, by decide, by decide, by decide⟩

/-- The envelope that crashes staging: a single top-level path with no
directory component. -/
def cexSources2 : List (String × String) := [("Token.sol", "contract Token is ERC20")]

/-- Prefix-freeness and target-freedom are decidable, so concrete
instances can be checked by evaluation. -/
instance (a b : String × String) : Decidable (PrefixFree a b) := by
  unfold PrefixFree
  infer_instance

/-- Supporting evaluation: a just-staged file blocking the directory
chain of a later file makes the staging loop raise `NotADirectoryError`
(Python: `os.path.exists` is true for the file `d/x`, `makedirs` is
skipped, and `open("d/x/y", "w")` fails with ENOTDIR). -/
def nestedConflictA : List (String × String) := [("d/x", "a"), ("d/x/y", "b")]

theorem stageMulti_file_blocks_directory :
    stageMulti ("") st0 nestedConflictA = Except.error PyExn.notADirectoryError := by
  decide

/-- Supporting evaluation: a directory created for an earlier file
occupying a later file's full path makes the staging loop raise
`IsADirectoryError` (Python: `open("d/x", "w")` on the directory
`d/x`). -/
def nestedConflictB : List (String × String) := [("d/x/y", "b"), ("d/x", "a")]

theorem stageMulti_directory_blocks_file :
    stageMulti ("") st0 nestedConflictB = Except.error PyExn.isADirectoryError := by
  decide

/-- A well-formed two-file envelope with nested paths. -/
def wSources2 : List (String × String) :=
  [("src/A.sol", "contract A is B"), ("lib/sub/C.sol", "library C")]

/-- Reduction of the explorer path on a 200 multi-file response. -/
theorem get_contract_code_bc_multi (b a cv name : String)
    (sources : List (String × String)) (st : PState) :
    get_contract_code_bc b a (ExplorerResp.mk 200 (SourceEnvelope.multi sources) cv name) st =
      (match workspacePrep [("contracts"), b, a]
          (PState.mk st.fs st.wd (get_solidity_version cv)) with
       | Except.error e => Except.error e
       | Except.ok st3 =>
         match stageMulti (mainContractOf name sources) st3 sources with
         | Except.error e => Except.error e
         | Except.ok st4 => Except.ok (some (mainContractOf name sources), st4)) := rfl

/-- Reduction of the handler on a request with both identifiers present. -/
theorem analyze_contract_bc_eq (b a : String) (code : Option String)
    (resp : ExplorerResp) (rawResults : List (List RawIssue)) (st : PState)
    (hb : b ≠ "") (ha : a ≠ "") :
    analyze_contract (some b) (some a) code resp rawResults st =
      (match get_contract_code_bc b a resp st with
       | Except.error e => Except.error e
       | Except.ok (contractOpt, st1) =>
         if !truthy contractOpt then
           Except.ok (HandlerResp.clientError errRetrieve, st1)
         else
           Except.ok (HandlerResp.success (analyze_contract_code rawResults),
             delete_contract_directory st1)) := by
  unfold analyze_contract
  rw [if_neg (by simp [truthy, hb, ha])]
  rfl

/-- The no-match envelope whose only path is nested, for the C3 witness. -/
def wSources3 : List (String × String) := [("src/A.sol", "no declarations here")]

/-- The no-match envelope with a top-level path, for the C3 counterexample. -/
def cexSources3 : List (String × String) := [("A.sol", "no declarations here")]

/-- The explorer response for the C3 counterexample. -/
def cexResp3 : ExplorerResp :=
  ExplorerResp.mk 200 (SourceEnvelope.multi cexSources3) compilerExample ("B")

end SolidityAnalyzer
